import Mathlib

/-!
# Verification of the S3 segment-archive backend (`libsql-wal/src/storage/backend/s3.rs`)

A shallow embedding of the object-store-backed WAL segment archive: the
segment-index codec (`fetch_segment_index_inner` / the index framing in
`store`), the key schema, the segment lookup (`find_segment_inner`), the
archive operations `fetch_segment`, `meta`, `restore_latest`,
`list_segments_inner`, and the streaming PUT body (`FileStreamBody`).

Machine integers (`u64`, `u32`, `u16`) are embedded as `Nat`, with explicit
bounds where overflow or underflow matters.  Bytes are `Nat`s below 256,
byte strings are `List Nat`.  Fallible operations return `Except`.
-/

set_option maxRecDepth 100000

namespace S3B

/-- Little-endian encoding of `n` on `w` bytes (the layout `zerocopy` emits
for the `lu16`/`lu32`/`lu64` fields of `SegmentIndexHeader`). -/
def leBytes (w n : Nat) : List Nat :=
  (List.range w).map fun i => n / 256 ^ i % 256

/-- Little-endian decoding of a byte string. -/
def fromLEBytes (l : List Nat) : Nat :=
  l.foldr (fun b acc => b + 256 * acc) 0

/-- One bit step of the reflected CRC-32 (IEEE polynomial, reversed
representation `0xEDB88320`), as computed by `crc32fast::hash`. -/
def crc32Bit (c : Nat) : Nat :=
  if c % 2 = 1 then (c / 2) ^^^ 0xEDB88320 else c / 2

/-- One byte step of CRC-32. -/
def crc32Byte (c b : Nat) : Nat :=
  crc32Bit (crc32Bit (crc32Bit (crc32Bit (crc32Bit (crc32Bit (crc32Bit (crc32Bit (c ^^^ b))))))))

/-- The function `crc32fast::hash`: CRC-32/ISO-HDLC with init and xorout `0xFFFFFFFF`. -/
def crc32 (data : List Nat) : Nat :=
  (data.foldl crc32Byte 0xFFFFFFFF) ^^^ 0xFFFFFFFF

/-- Modelled from the spec: `LIBSQL_MAGIC` is a `u64` constant defined at the
crate root (`libsql-wal/src/lib.rs`, not under `src/`).  Every claim settled
here is insensitive to its exact value; the big-endian bytes of `"LIBSQL\x00\x00"`
are used. -/
def LIBSQL_MAGIC : Nat := 0x4C494253514C0000

/-- Errors of `crate::storage::Error`, restricted to the variants this
backend produces: `FrameNotFound`, `InvalidIndex`, `Io`, `Unhandled`. -/
inductive StorageError where
  | frameNotFound (frameNo : Nat)
  | invalidIndex (reason : String)
  | ioErr
  | unhandled
  deriving DecidableEq, Repr

/-- The index framing written by `store` (s3.rs lines 422-437): a 22-byte
`SegmentIndexHeader` — `magic : lu64`, `version : lu16 = 1`,
`len : lu64 = |payload|`, `checksum : lu32 = crc32(payload)`, all
little-endian and byte-aligned — followed by the payload bytes. -/
def encodeIndex (payload : List Nat) : List Nat :=
  leBytes 8 LIBSQL_MAGIC ++ leBytes 2 1 ++ leBytes 8 payload.length
    ++ leBytes 4 (crc32 payload) ++ payload

/-- The decoder `fetch_segment_index_inner` (s3.rs lines 177-199) on the byte stream of
the index object.  The external FST constructor `fst::Map::new` is passed in
as `fstParse`.  Faithful points of the source:
* `read_exact` on the 22 header bytes fails with an I/O error (not
  `InvalidIndex`) when the stream is shorter;
* the header check is the *conjunction*
  `magic != LIBSQL_MAGIC && version != 1` (line 187);
* the payload is read until end of stream
  (`while stream.read_buf(&mut data).await? != 0 {}`, line 191) — the `len`
  header field is used only as a capacity hint and is never compared to the
  data;
* a checksum mismatch and an FST-constructor failure give the two
  `InvalidIndex` errors of lines 194 and 197. -/
def decodeIndex {α : Type} (fstParse : List Nat → Option α) (stream : List Nat) :
    Except StorageError α :=
  if stream.length < 22 then .error .ioErr
  else
    let magic := fromLEBytes (stream.take 8)
    let version := fromLEBytes ((stream.drop 8).take 2)
    let checksum := fromLEBytes ((stream.drop 18).take 4)
    if magic ≠ LIBSQL_MAGIC ∧ version ≠ 1 then
      .error (.invalidIndex "index header magic or version invalid")
    else
      let data := stream.drop 22
      if crc32 data ≠ checksum then .error (.invalidIndex "invalid index data checksum")
      else
        match fstParse data with
        | some m => .ok m
        | none => .error (.invalidIndex "invalid index bytes")

/-! ## Key schema -/

/-- The largest `u64` value, `u64::MAX`. -/
def U64_MAX : Nat := 2 ^ 64 - 1

/-- The decimal digit characters emitted by Rust's formatter. -/
def digitChar : Nat → Char
  | 0 => '0' | 1 => '1' | 2 => '2' | 3 => '3' | 4 => '4'
  | 5 => '5' | 6 => '6' | 7 => '7' | 8 => '8' | _ => '9'

/-- Rust's `format!("{:020}", n)`: the decimal representation of `n`, most
significant digit first, left-padded with `'0'` to 20 characters. -/
def rustFmt20 (n : Nat) : String :=
  ⟨List.replicate (20 - (Nat.digits 10 n).length) '0'
    ++ ((Nat.digits 10 n).reverse.map digitChar)⟩

/-- The `Display` of `FolderKey` (s3.rs lines 370-378):
`v2/clusters/{cluster_id}/namespaces/{namespace}`. -/
def folderKey (clusterId namespace' : String) : String :=
  "v2/clusters/" ++ clusterId ++ "/namespaces/" ++ namespace'

/-- The function `s3_segment_data_key` (s3.rs lines 380-382); `skDisplay` stands for the
`Display` of the `SegmentKey` (defined in `crate::storage`, outside this
file's sources). -/
def s3_segment_data_key (fk skDisplay : String) : String :=
  fk ++ "/segments/" ++ skDisplay

/-- The function `s3_segment_index_key` (s3.rs lines 384-386). -/
def s3_segment_index_key (fk skDisplay : String) : String :=
  fk ++ "/indexes/" ++ skDisplay

/-- The function `s3_segment_index_lookup_key` (s3.rs lines 392-394):
`format!("{folder_key}/indexes/{:020}", u64::MAX - frame_no)`. -/
def s3_segment_index_lookup_key (fk : String) (frameNo : Nat) : String :=
  fk ++ "/indexes/" ++ rustFmt20 (U64_MAX - frameNo)

/-! ## Segment keys and the list-based lookup -/

/-- The type `crate::storage::SegmentKey` (outside this file's sources): namespace is
kept implicit (one store per namespace), the `uuid` segment id is embedded
as a `Nat`. -/
structure SegmentKey where
  startFrameNo : Nat
  endFrameNo : Nat
  segmentId : Nat
  deriving DecidableEq, Repr

/-- Modelled from the spec: `SegmentKey::includes` — a segment includes
frame `f` iff `start_frame_no ≤ f ≤ end_frame_no`. -/
def SegmentKey.includes (k : SegmentKey) (f : Nat) : Prop :=
  k.startFrameNo ≤ f ∧ f ≤ k.endFrameNo

instance (k : SegmentKey) (f : Nat) : Decidable (k.includes f) :=
  inferInstanceAs (Decidable (_ ∧ _))

/-- Modelled from the spec: the lexicographic order of displayed segment
keys under a fixed namespace prefix.  The display starts with the 20-digit
zero-padded decimal of `u64::MAX - start_frame_no`, then the same encoding
of `end_frame_no`, then the segment id (this layout is pinned by the
ordering and overlap scenarios of the spec and by the `s3_basic` test:
`find_segment(63) = [0,64]`, `find_segment(64) = [64,128]`, "S2's key sorts
before S1's").  Hence key `a` displays before key `b` iff
`(MAX - a.start, MAX - a.end, a.id)` is lexicographically smaller. -/
def keyLt (a b : SegmentKey) : Prop :=
  b.startFrameNo < a.startFrameNo
    ∨ (a.startFrameNo = b.startFrameNo
        ∧ (b.endFrameNo < a.endFrameNo
            ∨ (a.endFrameNo = b.endFrameNo ∧ a.segmentId < b.segmentId)))

instance (a b : SegmentKey) : Decidable (keyLt a b) :=
  inferInstanceAs (Decidable (_ ∨ _))

/-- Modelled from the spec: a displayed segment key sorts strictly after the
lookup key `{:020}` of `u64::MAX - f` iff its first 20-digit field
`u64::MAX - start_frame_no` is at least `u64::MAX - f` (the display
continues after those 20 digits, while the lookup key ends), i.e. iff
`start_frame_no ≤ f`. -/
def afterLookup (k : SegmentKey) (f : Nat) : Prop :=
  k.startFrameNo ≤ f

instance (k : SegmentKey) (f : Nat) : Decidable (afterLookup k f) :=
  inferInstanceAs (Decidable (_ ≤ _))

/-- Keep the display-order-least key seen so far. -/
def chooseFirst (acc : Option SegmentKey) (k : SegmentKey) : Option SegmentKey :=
  match acc with
  | none => some k
  | some a => if keyLt k a then some k else some a

/-- The lookup `find_segment_inner` (s3.rs lines 202-230): `list_objects_v2` with the
`indexes/` prefix and `start_after` = the lookup key for `f` returns the
matching keys in ascending display order; the function takes the first one,
i.e. the `keyLt`-least among the keys sorting after the lookup key. -/
def findSegment (keys : List SegmentKey) (f : Nat) : Option SegmentKey :=
  (keys.filter fun k => decide (afterLookup k f)).foldl chooseFirst none

/-! ## The stored objects of one namespace -/

/-- Modelled from the spec: `CompactedSegmentDataHeader`
(`crate::segment::compacted`, outside this file's sources) carries at least
`start_frame_no : u64`, `frame_count : u32` and `size_after : u32` (the
logical page count after applying the segment). -/
structure CompactedSegmentDataHeader where
  startFrameNo : Nat
  frameCount : Nat
  sizeAfter : Nat
  deriving DecidableEq, Repr

/-- Modelled from the spec: a frame (`crate::segment::Frame`, outside this
file's sources) is a fixed-size record with a 1-based `page_no` in its
header and a 4096-byte page payload `data()`. -/
structure Frame where
  pageNo : Nat
  data : List Nat
  deriving DecidableEq, Repr

/-- The byte content of one segment data object, as consumed by the decode
side: the fixed header followed by the frames. -/
structure SegData where
  header : CompactedSegmentDataHeader
  frames : List Frame
  deriving DecidableEq, Repr

/-- One stored segment of a namespace: the shared `SegmentKey` of its two
objects, the data object content, and the raw bytes of the index object. -/
structure StoredSegment where
  key : SegmentKey
  data : SegData
  indexBytes : List Nat
  deriving DecidableEq, Repr

/-- The object store restricted to one namespace's folder: the list of its
stored segments. -/
abbrev Store := List StoredSegment

/-- The segment keys present under the namespace's `indexes/` prefix. -/
def Store.keys (store : Store) : List SegmentKey := store.map (·.key)

/-- A `GET` of the data object at `segments/{key}`: the stored content, or
none when the object does not exist (an unhandled SDK error in the code). -/
def Store.dataOf (store : Store) (k : SegmentKey) : Option SegData :=
  (store.find? fun s => s.key = k).map (·.data)

/-- A `GET` of the index object at `indexes/{key}`. -/
def Store.indexOf (store : Store) (k : SegmentKey) : Option (List Nat) :=
  (store.find? fun s => s.key = k).map (·.indexBytes)

/-! ## `fetch_segment` and `meta` -/

/-- The helper `fetch_segment_from_key` (s3.rs lines 297-310): joins the data download
into the destination file with `fetch_segment_index_inner` and returns the
decoded index.  The file-copy side can only fail with I/O or unhandled
errors, which are folded into the missing-object case here. -/
def fetchSegmentFromKey {α : Type} (fstParse : List Nat → Option α) (store : Store)
    (k : SegmentKey) : Except StorageError α :=
  match store.dataOf k, store.indexOf k with
  | some _, some ib => decodeIndex fstParse ib
  | _, _ => .error .unhandled

/-- The operation `fetch_segment` (s3.rs lines 442-469): look the segment up; fail with
`FrameNotFound(frame_no)` when nothing is found or when the found key does
not include `frame_no`; otherwise download the segment and return the
decoded index. -/
def fetchSegment {α : Type} (fstParse : List Nat → Option α) (store : Store)
    (frameNo : Nat) : Except StorageError α :=
  match findSegment store.keys frameNo with
  | none => .error (.frameNotFound frameNo)
  | some k =>
    if k.includes frameNo then fetchSegmentFromKey fstParse store k
    else .error (.frameNotFound frameNo)

/-- The record `DbMeta` (from `crate::storage`). -/
structure DbMeta where
  maxFrameNo : Nat
  deriving DecidableEq, Repr

/-- The operation `meta` (s3.rs lines 471-489): look up with `frame_no = u64::MAX` and
return the found key's `end_frame_no`, or 0 when nothing is found.  No
`includes` filter is applied. -/
def meta (store : Store) : DbMeta :=
  { maxFrameNo := ((findSegment store.keys U64_MAX).map (·.endFrameNo)).getD 0 }

/-! ## `restore_latest` -/

/-- One positional write issued to the destination file. -/
structure Write where
  pageNo : Nat
  offset : Nat
  data : List Nat
  deriving DecidableEq, Repr

/-- How a run of `restore_latest` ends.  `readError` covers `read_exact`
hitting end of stream and a failing `GET`; `missingSegment` is the
`todo!("there should be a segment!")` panic of line 285; `underflow` marks
the `u64` subtraction `start_frame_no - 1` evaluated at 0 (a panic in debug
builds, a wrap-around in release builds); `outOfFuel` only signals that the
model's iteration budget ran out. -/
inductive RestoreOutcome where
  | completed
  | readError
  | missingSegment
  | underflow
  | outOfFuel
  deriving DecidableEq, Repr

/-- The frame loop of `restore_latest` (s3.rs lines 262-273): for each frame
in order, pages not in `seen` are recorded and their 4096-byte payload is
written at offset `(page_no - 1) * 4096`; later occurrences are skipped.
The `RoaringBitmap` is embedded as the list of recorded pages, newest
first — it stays duplicate-free, so its length is the bitmap's
cardinality. -/
def replayFrames (seen : List Nat) (ws : List Write) : List Frame → List Nat × List Write
  | [] => (seen, ws)
  | f :: fs =>
    if f.pageNo ∈ seen then replayFrames seen ws fs
    else
      replayFrames (f.pageNo :: seen) (ws ++ [⟨f.pageNo, (f.pageNo - 1) * 4096, f.data⟩]) fs

/-- The segment loop of `restore_latest` (s3.rs lines 261-292).  `dbSize` is
fixed by the caller — in the source `db_size` is bound once, before the
loop, from the newest segment's header (line 258), and the loop never
rebinds it.  Each iteration replays the current segment's frames, breaks
when `seen.len() == db_size`, and otherwise looks up the segment for
`start_frame_no - 1` and re-reads the header from the fetched data. -/
def restoreLoop (store : Store) (dbSize : Nat) :
    Nat → CompactedSegmentDataHeader → List Frame → List Nat → List Write →
      List Write × RestoreOutcome
  | 0, _, _, _, ws => (ws, .outOfFuel)
  | fuel + 1, hdr, frames, seen, ws =>
    if frames.length < hdr.frameCount then (ws, .readError)
    else
      let p := replayFrames seen ws (frames.take hdr.frameCount)
      if p.1.length = dbSize then (p.2, .completed)
      else if hdr.startFrameNo = 0 then (p.2, .underflow)
      else
        match findSegment store.keys (hdr.startFrameNo - 1) with
        | none => (p.2, .missingSegment)
        | some k =>
          match store.dataOf k with
          | none => (p.2, .readError)
          | some sd => restoreLoop store dbSize fuel sd.header sd.frames p.1 p.2

/-- The operation `restore_latest` (s3.rs lines 234-295): look up the newest segment with
`frame_no = u64::MAX` (nothing found means nothing to restore), read its
header, fix `db_size = header.size_after`, and run the segment loop. -/
def restoreLatest (store : Store) (fuel : Nat) : List Write × RestoreOutcome :=
  match findSegment store.keys U64_MAX with
  | none => ([], .completed)
  | some k =>
    match store.dataOf k with
    | none => ([], .readError)
    | some sd => restoreLoop store sd.header.sizeAfter fuel sd.header sd.frames [] []

/-! ## The streaming PUT body (`FileStreamBody`) -/

/-- The state tag `StreamState` (s3.rs lines 576-581). -/
inductive StreamState where
  | initial
  | waitingChunk
  | done
  deriving DecidableEq, Repr

/-- The mutable state of `FileStreamBody`: the read offset and the state
machine tag (the fixed `chunk_size = 4096` only bounds read sizes and is
left to the abstract read function). -/
structure BodyState where
  currentOffset : Nat
  state : StreamState
  deriving DecidableEq, Repr

/-- What one call to `poll_frame` returns once its inner future resolves. -/
inductive PollResult where
  | data (chunk : List Nat)
  | eos
  | ioError
  deriving DecidableEq, Repr

/-- The poll step `FileStreamBody::poll_frame` (s3.rs lines 626-665), at the granularity
of one resolved read: `read` is `read_at_async` of the backing file,
returning the bytes read at an offset (at most `chunk_size` of them) or an
I/O error.  In `Init` the next read is issued at `current_offset`; an empty
read yields end-of-stream and moves to `Done`; a non-empty read advances
`current_offset` by the chunk length and emits the chunk; an error emits a
terminal error frame and moves to `Done`; in `Done` no frame is ever
produced. -/
def pollFrame (read : Nat → Except Unit (List Nat)) (s : BodyState) :
    BodyState × PollResult :=
  match s.state with
  | .done => (s, .eos)
  | _ =>
    match read s.currentOffset with
    | .ok buf =>
      if buf = [] then ({ s with state := .done }, .eos)
      else ({ currentOffset := s.currentOffset + buf.length, state := .initial }, .data buf)
    | .error _ => ({ s with state := .done }, .ioError)

/-! ## `list_segments` -/

/-- One entry of a `list_objects_v2` response: whether its key parses as a
valid `SegmentKey` (`SegmentKey::validate_from_path`), and its optional
`size` and `last_modified` attributes. -/
structure S3Entry where
  key : Option SegmentKey
  size : Option Nat
  lastModified : Option Nat
  deriving DecidableEq, Repr

/-- The record `SegmentInfo` (from `crate::storage`), with the timestamp as `Nat`. -/
structure SegmentInfo where
  key : SegmentKey
  size : Nat
  createdAt : Nat
  deriving DecidableEq, Repr

/-- The per-entry processing of `list_segments_inner` (s3.rs lines
334-346): entries whose key does not validate are skipped; for a valid key,
`size` falls back to 0 when absent (`entry.size().unwrap_or(0)`), while a
missing `last_modified` hits `entry.last_modified().unwrap()` — the stream
is aborted by panic (the `true` flag) and nothing further is yielded,
rather than an `Err` item being produced. -/
def listSegmentsProcess : List S3Entry → List SegmentInfo × Bool
  | [] => ([], false)
  | e :: rest =>
    match e.key with
    | none => listSegmentsProcess rest
    | some k =>
      match e.lastModified with
      | none => ([], true)
      | some t =>
        let p := listSegmentsProcess rest
        (⟨k, e.size.getD 0, t⟩ :: p.1, p.2)

/-! ## Claim-side definitions

These follow the words of the spec and of the claims, to be compared with
the source-side definitions above. -/

/-- Following the spec's words for the restore write policy: writes of a
frame stream, keeping for each page only its first occurrence after `seen`,
at offset `(page_no - 1) * 4096`; later occurrences of an already-seen page
are skipped. -/
def dedupWrites (seen : List Nat) : List Frame → List Write
  | [] => []
  | f :: fs =>
    if f.pageNo ∈ seen then dedupWrites seen fs
    else ⟨f.pageNo, (f.pageNo - 1) * 4096, f.data⟩ :: dedupWrites (f.pageNo :: seen) fs

/-- Following the claim's words for C3: the stream of frames encountered by
the newest-first segment walk of `restore_latest`, in walk order — the same
lookup chain and stopping conditions as `restoreLoop`, collecting the
`frame_count`-long frame block of each visited segment. -/
def specWalkFrames (store : Store) (dbSize : Nat) :
    Nat → CompactedSegmentDataHeader → List Frame → List Nat → List Frame
  | 0, _, _, _ => []
  | fuel + 1, hdr, frames, seen =>
    if frames.length < hdr.frameCount then []
    else
      let cur := frames.take hdr.frameCount
      let seen' := ((dedupWrites seen cur).map (·.pageNo)).reverse ++ seen
      if seen'.length = dbSize then cur
      else if hdr.startFrameNo = 0 then cur
      else
        match findSegment store.keys (hdr.startFrameNo - 1) with
        | none => cur
        | some k =>
          match store.dataOf k with
          | none => cur
          | some sd => cur ++ specWalkFrames store dbSize fuel sd.header sd.frames seen'

/-- The frame stream of the whole newest-first walk of `restore_latest`. -/
def specWalk (store : Store) (fuel : Nat) : List Frame :=
  match findSegment store.keys U64_MAX with
  | none => []
  | some k =>
    match store.dataOf k with
    | none => []
    | some sd => specWalkFrames store sd.header.sizeAfter fuel sd.header sd.frames []

/-- Following the claim's words for C8: the variant of the segment loop in
which step 1 rebinds `db_size = header.size_after` for every visited
segment, so the completion check compares against the *current* segment's
`size_after`. -/
def restoreLoopPerSegment (store : Store) :
    Nat → CompactedSegmentDataHeader → List Frame → List Nat → List Write →
      List Write × RestoreOutcome
  | 0, _, _, _, ws => (ws, .outOfFuel)
  | fuel + 1, hdr, frames, seen, ws =>
    if frames.length < hdr.frameCount then (ws, .readError)
    else
      let p := replayFrames seen ws (frames.take hdr.frameCount)
      if p.1.length = hdr.sizeAfter then (p.2, .completed)
      else if hdr.startFrameNo = 0 then (p.2, .underflow)
      else
        match findSegment store.keys (hdr.startFrameNo - 1) with
        | none => (p.2, .missingSegment)
        | some k =>
          match store.dataOf k with
          | none => (p.2, .readError)
          | some sd => restoreLoopPerSegment store fuel sd.header sd.frames p.1 p.2

/-- The variant of `restore_latest` as C8 reads it: `db_size` re-taken from the header of
the segment currently being replayed. -/
def restoreLatestPerSegment (store : Store) (fuel : Nat) : List Write × RestoreOutcome :=
  match findSegment store.keys U64_MAX with
  | none => ([], .completed)
  | some k =>
    match store.dataOf k with
    | none => ([], .readError)
    | some sd => restoreLoopPerSegment store fuel sd.header sd.frames [] []

/-- Runs `n` successive calls to `poll_frame`, collecting the emitted results. -/
def pollRun (read : Nat → Except Unit (List Nat)) : Nat → BodyState → List PollResult
  | 0, _ => []
  | n + 1, s =>
    let p := pollFrame read s
    p.2 :: pollRun read n p.1

/-- A concrete two-segment store: the newest segment `[5, 10]` holds page 1
and declares `size_after = 2`; the older segment `[1, 4]` holds page 2 and
declares `size_after = 1`. -/
def demoStore : Store :=
  [⟨⟨5, 10, 1⟩, ⟨⟨5, 1, 2⟩, [⟨1, [11]⟩]⟩, []⟩,
   ⟨⟨1, 4, 2⟩, ⟨⟨1, 1, 1⟩, [⟨2, [22]⟩]⟩, []⟩]

/-- A concrete store whose only segment has `start_frame_no = 0`, one frame
(page 1) and `size_after = 2`, so its replay leaves the restore
incomplete. -/
def demoStoreZero : Store :=
  [⟨⟨0, 10, 1⟩, ⟨⟨0, 1, 2⟩, [⟨1, [9]⟩]⟩, []⟩]

/-! ## Lemmas about the segment lookup -/

theorem chooseFirst_ne_none (acc : Option SegmentKey) (k : SegmentKey) :
    chooseFirst acc k ≠ none := by
  cases acc with
  | none => simp [chooseFirst]
  | some a =>
    simp only [chooseFirst]
    split <;> simp

theorem foldl_chooseFirst_eq_none_iff :
    ∀ (l : List SegmentKey) (acc : Option SegmentKey),
      l.foldl chooseFirst acc = none ↔ l = [] ∧ acc = none := by
  intro l
  induction l with
  | nil => simp
  | cons x xs ih =>
    intro acc
    simp only [List.foldl_cons, ih, List.cons_ne_self]
    constructor
    · rintro ⟨-, h⟩
      exact absurd h (chooseFirst_ne_none acc x)
    · rintro ⟨h, -⟩
      exact absurd h (List.cons_ne_nil x xs)

theorem foldl_chooseFirst_mem :
    ∀ (l : List SegmentKey) (acc : Option SegmentKey) (k : SegmentKey),
      l.foldl chooseFirst acc = some k → k ∈ l ∨ acc = some k := by
  intro l
  induction l with
  | nil => intro acc k h; exact Or.inr h
  | cons x xs ih =>
    intro acc k h
    rcases ih (chooseFirst acc x) k h with hx | hacc
    · exact Or.inl (List.mem_cons_of_mem x hx)
    · cases acc with
      | none =>
        simp only [chooseFirst, Option.some.injEq] at hacc
        exact Or.inl (hacc ▸ List.mem_cons_self x xs)
      | some a =>
        simp only [chooseFirst] at hacc
        by_cases hlt : keyLt x a
        · rw [if_pos hlt] at hacc
          simp only [Option.some.injEq] at hacc
          exact Or.inl (hacc ▸ List.mem_cons_self x xs)
        · rw [if_neg hlt] at hacc
          exact Or.inr hacc

theorem foldl_chooseFirst_start :
    ∀ (l : List SegmentKey) (acc : Option SegmentKey) (k : SegmentKey),
      l.foldl chooseFirst acc = some k →
        (∀ x ∈ l, x.startFrameNo ≤ k.startFrameNo)
          ∧ (∀ a, acc = some a → a.startFrameNo ≤ k.startFrameNo) := by
  intro l
  induction l with
  | nil =>
    intro acc k h
    refine ⟨by simp, fun a ha => ?_⟩
    rw [ha] at h
    cases h
    exact le_refl _
  | cons x xs ih =>
    intro acc k h
    obtain ⟨hxs, hacc'⟩ := ih (chooseFirst acc x) k h
    have hx : x.startFrameNo ≤ k.startFrameNo := by
      cases acc with
      | none => exact hacc' x rfl
      | some a =>
        by_cases hlt : keyLt x a
        · exact hacc' x (show chooseFirst (some a) x = some x from if_pos hlt)
        · have ha : a.startFrameNo ≤ k.startFrameNo :=
            hacc' a (show chooseFirst (some a) x = some a from if_neg hlt)
          unfold keyLt at hlt
          push_neg at hlt
          exact le_trans hlt.1 ha
    refine ⟨fun y hy => ?_, fun a ha => ?_⟩
    · rcases List.mem_cons.mp hy with rfl | hy'
      · exact hx
      · exact hxs y hy'
    · cases acc with
      | none => cases ha
      | some b =>
        cases ha
        by_cases hlt : keyLt x a
        · have hk := hacc' x (show chooseFirst (some a) x = some x from if_pos hlt)
          unfold keyLt at hlt
          rcases hlt with h1 | ⟨h1, -⟩
          · exact le_trans (le_of_lt h1) hk
          · exact h1 ▸ hk
        · exact hacc' a (show chooseFirst (some a) x = some a from if_neg hlt)

theorem findSegment_none_iff (keys : List SegmentKey) (f : Nat) :
    findSegment keys f = none ↔ ∀ k ∈ keys, ¬ afterLookup k f := by
  unfold findSegment
  rw [foldl_chooseFirst_eq_none_iff]
  simp [List.filter_eq_nil_iff]

theorem findSegment_mem {keys : List SegmentKey} {f : Nat} {k : SegmentKey}
    (h : findSegment keys f = some k) : k ∈ keys ∧ k.startFrameNo ≤ f := by
  unfold findSegment at h
  rcases foldl_chooseFirst_mem _ _ _ h with hm | hab
  · obtain ⟨hk, hd⟩ := List.mem_filter.mp hm
    exact ⟨hk, of_decide_eq_true hd⟩
  · cases hab

theorem findSegment_start_max {keys : List SegmentKey} {f : Nat} {k : SegmentKey}
    (h : findSegment keys f = some k) :
    ∀ x ∈ keys, x.startFrameNo ≤ f → x.startFrameNo ≤ k.startFrameNo := by
  intro x hx hxf
  unfold findSegment at h
  exact (foldl_chooseFirst_start _ _ _ h).1 x
    (List.mem_filter.mpr ⟨hx, decide_eq_true hxf⟩)

/-! ## Lemmas about the index codec -/

theorem decodeIndex_ok_shape {α : Type} (fstParse : List Nat → Option α) (stream : List Nat)
    (h22 : ¬ stream.length < 22)
    (hmag : ¬(fromLEBytes (stream.take 8) ≠ LIBSQL_MAGIC
        ∧ fromLEBytes ((stream.drop 8).take 2) ≠ 1))
    (hcrc : ¬ crc32 (stream.drop 22) ≠ fromLEBytes ((stream.drop 18).take 4)) :
    decodeIndex fstParse stream
      = match fstParse (stream.drop 22) with
        | some m => .ok m
        | none => .error (.invalidIndex "invalid index bytes") := by
  simp only [decodeIndex, if_neg h22, if_neg hmag, if_neg hcrc]

theorem decodeIndex_checksum_error {α : Type} (fstParse : List Nat → Option α)
    (stream : List Nat)
    (h22 : ¬ stream.length < 22)
    (hmag : ¬(fromLEBytes (stream.take 8) ≠ LIBSQL_MAGIC
        ∧ fromLEBytes ((stream.drop 8).take 2) ≠ 1))
    (hcrc : crc32 (stream.drop 22) ≠ fromLEBytes ((stream.drop 18).take 4)) :
    decodeIndex fstParse stream = .error (.invalidIndex "invalid index data checksum") := by
  simp only [decodeIndex, if_neg h22, if_neg hmag, if_pos hcrc]

/-! ## C1 and C2 -/

/-- C1: the claim states that corrupting any single byte of the 22-byte
header or of the payload of a well-formed stored index object makes decode
fail with `InvalidIndex`, and that decode reads exactly `length` payload
bytes.  The code disagrees: its header check fires only when magic *and*
version are both invalid (`&&` on line 187, against the disjunction of its
own error message), and the `length` field is never compared to the data
(decode reads to end of stream).  This theorem evaluates the decode model
at the failing inputs, for every FST constructor `fstParse` that accepts
the payload `[1, 2]`: corrupting the first magic byte (conjunct 1) or a
`length` byte (conjunct 2) still decodes successfully; the true part of the
claim also holds — corrupting any payload byte is caught by the CRC check
(conjunct 3) — and bytes beyond `length` are read and checksummed
(conjunct 4). -/
theorem c1_single_byte_corruption {α : Type} (fstParse : List Nat → Option α) (m : α)
    (h : fstParse [1, 2] = some m) :
    decodeIndex fstParse ((encodeIndex [1, 2]).set 0 1) = .ok m
    ∧ decodeIndex fstParse ((encodeIndex [1, 2]).set 10 7) = .ok m
    ∧ (∀ i, i < 2 → ∀ b, b < 256 → b ≠ [1, 2].getD i 0 →
        decodeIndex fstParse ((encodeIndex [1, 2]).set (22 + i) b)
          = .error (.invalidIndex "invalid index data checksum"))
    ∧ decodeIndex fstParse (encodeIndex [1, 2] ++ [0])
        = .error (.invalidIndex "invalid index data checksum") := by
  refine ⟨?_, ?_, ?_, ?_⟩
  · rw [decodeIndex_ok_shape fstParse _ (by decide) (by decide) (by decide),
      show ((encodeIndex [1, 2]).set 0 1).drop 22 = [1, 2] from by decide, h]
  · rw [decodeIndex_ok_shape fstParse _ (by decide) (by decide) (by decide),
      show ((encodeIndex [1, 2]).set 10 7).drop 22 = [1, 2] from by decide, h]
  · have key : ∀ i, i < 2 → ∀ b, b < 256 → b ≠ [1, 2].getD i 0 →
        (¬ ((encodeIndex [1, 2]).set (22 + i) b).length < 22)
        ∧ (¬ (fromLEBytes (((encodeIndex [1, 2]).set (22 + i) b).take 8) ≠ LIBSQL_MAGIC
            ∧ fromLEBytes ((((encodeIndex [1, 2]).set (22 + i) b).drop 8).take 2) ≠ 1))
        ∧ crc32 (((encodeIndex [1, 2]).set (22 + i) b).drop 22)
            ≠ fromLEBytes ((((encodeIndex [1, 2]).set (22 + i) b).drop 18).take 4) := by
      decide
    intro i hi b hb hne
    obtain ⟨k1, k2, k3⟩ := key i hi b hb hne
    exact decodeIndex_checksum_error fstParse _ k1 k2 k3
  · exact decodeIndex_checksum_error fstParse _ (by decide) (by decide) (by decide)

/-- C2: the claim states that every input whose first 8 bytes are not
`LIBSQL_MAGIC` is rejected with `InvalidIndex`, even when the version field
is 1, and in particular that `magic = LIBSQL_MAGIC + 1` with version 1 is
rejected.  The code's conjunctive check (line 187) lets such a stream
through: for every FST constructor accepting the payload `[7]`, decoding
the framed object whose magic field holds `LIBSQL_MAGIC + 1` and whose
version is 1 succeeds. -/
theorem c2_wrong_magic_accepted {α : Type} (fstParse : List Nat → Option α) (m : α)
    (h : fstParse [7] = some m) :
    fromLEBytes ((leBytes 8 (LIBSQL_MAGIC + 1) ++ leBytes 2 1 ++ leBytes 8 1
        ++ leBytes 4 (crc32 [7]) ++ [7]).take 8) = LIBSQL_MAGIC + 1
    ∧ decodeIndex fstParse (leBytes 8 (LIBSQL_MAGIC + 1) ++ leBytes 2 1 ++ leBytes 8 1
        ++ leBytes 4 (crc32 [7]) ++ [7]) = .ok m := by
  have hd : (leBytes 8 (LIBSQL_MAGIC + 1) ++ leBytes 2 1 ++ leBytes 8 1
      ++ leBytes 4 (crc32 [7]) ++ [7]).drop 22 = [7] := by decide
  refine ⟨by decide, ?_⟩
  rw [decodeIndex_ok_shape fstParse _ (by decide) (by decide) (by decide), hd, h]

/-- Witness for C1 at the constant FST constructor. -/
theorem c1_single_byte_corruption_witness :
    decodeIndex (fun _ => some 0) ((encodeIndex [1, 2]).set 0 1) = .ok 0 :=
  (c1_single_byte_corruption (fun _ => some 0) 0 rfl).1

/-- Witness for C2 at the constant FST constructor. -/
theorem c2_wrong_magic_accepted_witness :
    decodeIndex (fun _ => some 0) (leBytes 8 (LIBSQL_MAGIC + 1) ++ leBytes 2 1
      ++ leBytes 8 1 ++ leBytes 4 (crc32 [7]) ++ [7]) = .ok 0 :=
  (c2_wrong_magic_accepted (fun _ => some 0) 0 rfl).2

/-! ## C4: `fetch_segment` and `FrameNotFound` -/

theorem decodeIndex_ne_frameNotFound {α : Type} (fstParse : List Nat → Option α)
    (s : List Nat) (n : Nat) :
    decodeIndex fstParse s ≠ .error (.frameNotFound n) := by
  simp only [decodeIndex]
  split
  · simp
  · split
    · simp
    · split
      · simp
      · split <;> simp

theorem fetchSegmentFromKey_ne_frameNotFound {α : Type} (fstParse : List Nat → Option α)
    (store : Store) (k : SegmentKey) (n : Nat) :
    fetchSegmentFromKey fstParse store k ≠ .error (.frameNotFound n) := by
  unfold fetchSegmentFromKey
  cases hd : store.dataOf k with
  | none => simp
  | some sd =>
    cases hi : store.indexOf k with
    | none => simp
    | some ib => exact decodeIndex_ne_frameNotFound fstParse ib n

/-- C4: `fetch_segment` fails with `FrameNotFound(frame_no)` exactly when
the lookup finds nothing (in particular on an empty namespace) or when the
found segment key does not include `frame_no`; otherwise it performs the
download and returns the decoded index map. -/
theorem c4_fetchSegment_frameNotFound {α : Type} (fstParse : List Nat → Option α)
    (store : Store) (f : Nat) :
    (fetchSegment fstParse store f = .error (.frameNotFound f)
      ↔ findSegment store.keys f = none
        ∨ ∃ k, findSegment store.keys f = some k ∧ ¬ k.includes f)
    ∧ (∀ k, findSegment store.keys f = some k → k.includes f →
        fetchSegment fstParse store f = fetchSegmentFromKey fstParse store k)
    ∧ (store = [] → fetchSegment fstParse store f = .error (.frameNotFound f)) := by
  refine ⟨?_, ?_, ?_⟩
  · cases hfind : findSegment store.keys f with
    | none => simp [fetchSegment, hfind]
    | some k =>
      by_cases hinc : k.includes f
      · simp only [fetchSegment, hfind, if_pos hinc, Option.some.injEq]
        constructor
        · intro h
          exact absurd h (fetchSegmentFromKey_ne_frameNotFound fstParse store k f)
        · rintro (h | ⟨k', rfl, hk'⟩)
          · cases h
          · exact absurd hinc hk'
      · simp only [fetchSegment, hfind, if_neg hinc, Option.some.injEq]
        exact ⟨fun _ => Or.inr ⟨k, rfl, hinc⟩, fun _ => trivial⟩
  · intro k hk hinc
    simp only [fetchSegment, hk, if_pos hinc]
  · rintro rfl
    rfl

/-- Witness for C4: the empty namespace yields `FrameNotFound(5)`. -/
theorem c4_fetchSegment_frameNotFound_witness :
    fetchSegment (fun _ => some 0) ([] : Store) 5 = .error (.frameNotFound 5) :=
  (c4_fetchSegment_frameNotFound (fun _ => some 0) [] 5).2.2 rfl

/-! ## C7: `meta` -/

/-- C7: `meta` returns `max_frame_no = 0` when the namespace holds no
segment reachable by the `u64::MAX` lookup (the empty namespace included),
and otherwise the `end_frame_no` of the found key — unconditionally, with
no `includes` filter on this path; the found key maximises
`start_frame_no`, i.e. it is the newest segment of the namespace. -/
theorem c7_meta_max_frame_no (store : Store) :
    (findSegment store.keys U64_MAX = none → meta store = ⟨0⟩)
    ∧ (∀ k, findSegment store.keys U64_MAX = some k → meta store = ⟨k.endFrameNo⟩)
    ∧ (store = [] → meta store = ⟨0⟩)
    ∧ (∀ k, findSegment store.keys U64_MAX = some k →
        ∀ x ∈ store.keys, x.startFrameNo ≤ U64_MAX → x.startFrameNo ≤ k.startFrameNo) := by
  refine ⟨?_, ?_, ?_, fun k hk => findSegment_start_max hk⟩
  · intro h
    simp [meta, h]
  · intro k h
    simp [meta, h]
  · rintro rfl
    rfl

/-- Witness for C7: a store whose only segment does not include `u64::MAX`
still determines `max_frame_no = 64` — no `includes` filter is applied. -/
theorem c7_meta_max_frame_no_witness :
    meta [⟨⟨0, 64, 1⟩, ⟨⟨0, 0, 1⟩, []⟩, []⟩] = ⟨64⟩ :=
  (c7_meta_max_frame_no [⟨⟨0, 64, 1⟩, ⟨⟨0, 0, 1⟩, []⟩, []⟩]).2.1 ⟨0, 64, 1⟩ (by decide)

/-! ## C10: `list_segments` entry processing -/

/-- C10: for listed entries whose key parses as a valid `SegmentKey`,
`list_segments` assumes `last_modified` is present: a valid-key entry
without it aborts the stream by panic (the `true` flag) instead of yielding
an `Err` item, while a missing `size` falls back to 0. -/
theorem c10_list_segments_last_modified (entries : List S3Entry) :
    ((listSegmentsProcess entries).2 = true
      ↔ ∃ e ∈ entries, e.key ≠ none ∧ e.lastModified = none)
    ∧ ((listSegmentsProcess entries).2 = false →
        (listSegmentsProcess entries).1
          = entries.filterMap fun e =>
              match e.key, e.lastModified with
              | some k, some t => some (⟨k, e.size.getD 0, t⟩ : SegmentInfo)
              | _, _ => none) := by
  induction entries with
  | nil => simp [listSegmentsProcess]
  | cons e rest ih =>
    cases hk : e.key with
    | none =>
      have hstep : listSegmentsProcess (e :: rest) = listSegmentsProcess rest := by
        simp [listSegmentsProcess, hk]
      rw [hstep]
      constructor
      · rw [ih.1]
        constructor
        · rintro ⟨x, hx, hxk, hxl⟩
          exact ⟨x, List.mem_cons_of_mem e hx, hxk, hxl⟩
        · rintro ⟨x, hx, hxk, hxl⟩
          rcases List.mem_cons.mp hx with rfl | hx'
          · exact absurd hk hxk
          · exact ⟨x, hx', hxk, hxl⟩
      · intro hf
        rw [ih.2 hf, List.filterMap_cons, hk]
    | some k =>
      cases hl : e.lastModified with
      | none =>
        have hstep : listSegmentsProcess (e :: rest) = ([], true) := by
          simp [listSegmentsProcess, hk, hl]
        rw [hstep]
        refine ⟨⟨fun _ => ⟨e, List.mem_cons_self e rest, by simp [hk], hl⟩, fun _ => rfl⟩, ?_⟩
        intro hf
        cases hf
      | some t =>
        have hstep : listSegmentsProcess (e :: rest)
            = (⟨k, e.size.getD 0, t⟩ :: (listSegmentsProcess rest).1,
                (listSegmentsProcess rest).2) := by
          simp [listSegmentsProcess, hk, hl]
        rw [hstep]
        constructor
        · rw [ih.1]
          constructor
          · rintro ⟨x, hx, hxk, hxl⟩
            exact ⟨x, List.mem_cons_of_mem e hx, hxk, hxl⟩
          · rintro ⟨x, hx, hxk, hxl⟩
            rcases List.mem_cons.mp hx with rfl | hx'
            · rw [hl] at hxl
              cases hxl
            · exact ⟨x, hx', hxk, hxl⟩
        · intro hf
          rw [ih.2 hf, List.filterMap_cons, hk, hl]

/-- Witness for C10: one valid-key entry with no `size` and a present
`last_modified` yields one `SegmentInfo` with `size = 0` and no abort. -/
theorem c10_list_segments_last_modified_witness :
    (listSegmentsProcess [⟨some ⟨0, 1, 1⟩, none, some 5⟩]).1 = [⟨⟨0, 1, 1⟩, 0, 5⟩] :=
  (c10_list_segments_last_modified [⟨some ⟨0, 1, 1⟩, none, some 5⟩]).2 rfl

/-! ## C5: key derivation -/

theorem digits_len_le_of_lt {n k : Nat} (h : n < 10 ^ k) : (Nat.digits 10 n).length ≤ k := by
  rcases Nat.eq_zero_or_pos n with rfl | hn
  · simp
  · by_contra hlt
    push_neg at hlt
    have h1 := Nat.base_pow_length_digits_le 10 n (by norm_num) (Nat.pos_iff_ne_zero.mp hn)
    have h2 : 10 ^ (k + 1) ≤ 10 ^ (Nat.digits 10 n).length :=
      Nat.pow_le_pow_right (by norm_num) hlt
    have h3 : 10 * 10 ^ k ≤ 10 * n := by
      calc 10 * 10 ^ k = 10 ^ (k + 1) := by ring
      _ ≤ 10 ^ (Nat.digits 10 n).length := h2
      _ ≤ 10 * n := h1
    have h4 : 10 ^ k ≤ n := Nat.le_of_mul_le_mul_left h3 (by norm_num)
    omega

theorem rustFmt20_length {n : Nat} (h : n < 10 ^ 20) : (rustFmt20 n).length = 20 := by
  have hle := digits_len_le_of_lt h
  show (List.replicate (20 - (Nat.digits 10 n).length) '0'
      ++ ((Nat.digits 10 n).reverse.map digitChar)).length = 20
  simp only [List.length_append, List.length_replicate, List.length_map, List.length_reverse]
  omega

theorem ofDigits_replicate_zero (p : Nat) : Nat.ofDigits 10 (List.replicate p 0) = 0 := by
  induction p with
  | zero => rfl
  | succ q ih => simp [List.replicate_succ, Nat.ofDigits_cons, ih]

theorem digitChar_toNat {d : Nat} (h : d < 10) : (digitChar d).toNat - 48 = d := by
  interval_cases d <;> decide

theorem rustFmt20_value (n : Nat) :
    Nat.ofDigits 10 (((rustFmt20 n).data.map (fun c => c.toNat - 48)).reverse) = n := by
  have hmap : ((Nat.digits 10 n).reverse.map digitChar).map (fun c => c.toNat - 48)
      = (Nat.digits 10 n).reverse := by
    rw [List.map_map]
    have hcong : ∀ d ∈ (Nat.digits 10 n).reverse,
        ((fun c => c.toNat - 48) ∘ digitChar) d = id d := by
      intro d hd
      exact digitChar_toNat (Nat.digits_lt_base (by norm_num) (List.mem_reverse.mp hd))
    rw [List.map_congr_left hcong, List.map_id]
  show Nat.ofDigits 10 (((List.replicate (20 - (Nat.digits 10 n).length) '0'
      ++ ((Nat.digits 10 n).reverse.map digitChar)).map (fun c => c.toNat - 48)).reverse) = n
  rw [List.map_append, hmap, List.map_replicate]
  show Nat.ofDigits 10 ((List.replicate _ 0 ++ (Nat.digits 10 n).reverse).reverse) = n
  rw [List.reverse_append, List.reverse_reverse, List.reverse_replicate, Nat.ofDigits_append,
    Nat.ofDigits_digits, ofDigits_replicate_zero]
  ring

/-- C5: key derivation is a pure function of
`(cluster_id, namespace, segment key / frame number)`: data and index keys
live under `v2/clusters/{cluster_id}/namespaces/{namespace}` followed by
`/segments/` resp. `/indexes/`, and the lookup key for frame `f` appends to
`{folder}/indexes/` the 20-digit zero-padded decimal representation of
`u64::MAX - f` (it has length 20 and reads back, as a decimal numeral, to
`u64::MAX - f`). -/
theorem c5_key_schema (cid ns sk : String) (f : Nat) :
    s3_segment_data_key (folderKey cid ns) sk
      = "v2/clusters/" ++ cid ++ "/namespaces/" ++ ns ++ "/segments/" ++ sk
    ∧ s3_segment_index_key (folderKey cid ns) sk
      = "v2/clusters/" ++ cid ++ "/namespaces/" ++ ns ++ "/indexes/" ++ sk
    ∧ s3_segment_index_lookup_key (folderKey cid ns) f
      = "v2/clusters/" ++ cid ++ "/namespaces/" ++ ns ++ "/indexes/" ++ rustFmt20 (U64_MAX - f)
    ∧ (rustFmt20 (U64_MAX - f)).length = 20
    ∧ Nat.ofDigits 10 (((rustFmt20 (U64_MAX - f)).data.map (fun c => c.toNat - 48)).reverse)
      = U64_MAX - f := by
  refine ⟨rfl, rfl, rfl, rustFmt20_length ?_, rustFmt20_value _⟩
  have h1 : U64_MAX - f ≤ U64_MAX := Nat.sub_le _ _
  have h2 : U64_MAX < 10 ^ 20 := by norm_num [U64_MAX]
  omega

/-! ## C6: the streaming PUT body -/

/-- C6: `FileStreamBody` reads at monotonically increasing offsets,
advancing by the length of each emitted chunk; a zero-length read yields
end-of-stream and the `Done` state; an I/O error emits one terminal error
frame and moves to `Done`; from `Done`, repeated polling produces no data
frame, ever. -/
theorem c6_file_stream_body (read : Nat → Except Unit (List Nat)) :
    (∀ s s' c, pollFrame read s = (s', .data c) →
        c ≠ [] ∧ s'.currentOffset = s.currentOffset + c.length)
    ∧ (∀ s s' r, pollFrame read s = (s', r) → s.currentOffset ≤ s'.currentOffset)
    ∧ (∀ s, s.state ≠ .done → read s.currentOffset = .ok [] →
        pollFrame read s = ({ s with state := .done }, .eos))
    ∧ (∀ s s', pollFrame read s = (s', .ioError) → s'.state = .done)
    ∧ (∀ s, s.state = .done → pollFrame read s = (s, .eos))
    ∧ (∀ s n, s.state = .done → pollRun read n s = List.replicate n .eos) := by
  have hdone : ∀ s : BodyState, s.state = .done → pollFrame read s = (s, .eos) := by
    intro s hs
    obtain ⟨off, st⟩ := s
    cases st <;> simp_all [pollFrame]
  have hdata : ∀ s s' c, pollFrame read s = (s', .data c) →
      c ≠ [] ∧ s'.currentOffset = s.currentOffset + c.length := by
    intro s s' c h
    obtain ⟨off, st⟩ := s
    cases st
    case done => simp [pollFrame] at h
    all_goals
      simp only [pollFrame] at h
      split at h
      case _ buf hr =>
        split at h
        · cases h
        · cases h
          exact ⟨by assumption, rfl⟩
      case _ e hr => cases h
  refine ⟨hdata, ?_, ?_, ?_, hdone, ?_⟩
  · intro s s' r h
    obtain ⟨off, st⟩ := s
    cases st
    case done =>
      rw [hdone ⟨off, .done⟩ rfl] at h
      cases h
      exact le_refl _
    all_goals
      simp only [pollFrame] at h
      split at h
      case _ buf hr =>
        split at h
        · cases h
          exact le_refl _
        · cases h
          exact Nat.le_add_right _ _
      case _ e hr =>
        cases h
        exact le_refl _
  · intro s hs hr
    obtain ⟨off, st⟩ := s
    cases st
    case done => exact absurd rfl hs
    all_goals
      simp only [pollFrame]
      rw [hr]
      rfl
  · intro s s' h
    obtain ⟨off, st⟩ := s
    cases st
    case done =>
      rw [hdone ⟨off, .done⟩ rfl] at h
      cases h
    all_goals
      simp only [pollFrame] at h
      split at h
      case _ buf hr =>
        split at h
        · cases h
        · cases h
      case _ e hr =>
        cases h
        rfl
  · intro s n hs
    induction n with
    | zero => rfl
    | succ m ih =>
      simp only [pollRun, hdone s hs, List.replicate_succ, ih]

/-- Witness for C6: a `Done` body emits no frame. -/
theorem c6_file_stream_body_witness :
    pollFrame (fun _ => .ok [1]) ⟨0, .done⟩ = (⟨0, .done⟩, .eos) :=
  (c6_file_stream_body (fun _ => .ok [1])).2.2.2.2.1 ⟨0, .done⟩ rfl

/-! ## Lemmas about the restore walk -/

theorem replayFrames_eq :
    ∀ (frames : List Frame) (seen : List Nat) (ws : List Write),
      replayFrames seen ws frames
        = (((dedupWrites seen frames).map (·.pageNo)).reverse ++ seen,
            ws ++ dedupWrites seen frames) := by
  intro frames
  induction frames with
  | nil => intro seen ws; simp [replayFrames, dedupWrites]
  | cons f fs ih =>
    intro seen ws
    by_cases h : f.pageNo ∈ seen
    · simp only [replayFrames, dedupWrites, if_pos h]
      exact ih seen ws
    · simp only [replayFrames, dedupWrites, if_neg h]
      rw [ih]
      simp [List.append_assoc]

theorem dedupWrites_append :
    ∀ (a b : List Frame) (seen : List Nat),
      dedupWrites seen (a ++ b)
        = dedupWrites seen a
            ++ dedupWrites (((dedupWrites seen a).map (·.pageNo)).reverse ++ seen) b := by
  intro a
  induction a with
  | nil => intro b seen; simp [dedupWrites]
  | cons f fs ih =>
    intro b seen
    by_cases h : f.pageNo ∈ seen
    · simp only [List.cons_append, dedupWrites, if_pos h]
      exact ih b seen
    · simp only [List.cons_append, dedupWrites, if_neg h, List.append_eq]
      rw [ih]
      simp [List.append_assoc]

theorem dedup_pages_not_mem :
    ∀ (fs : List Frame) (seen : List Nat) (w : Write),
      w ∈ dedupWrites seen fs → w.pageNo ∉ seen := by
  intro fs
  induction fs with
  | nil => intro seen w h; simp [dedupWrites] at h
  | cons f fs ih =>
    intro seen w h
    by_cases hm : f.pageNo ∈ seen
    · simp only [dedupWrites, if_pos hm] at h
      exact ih seen w h
    · simp only [dedupWrites, if_neg hm] at h
      rcases List.mem_cons.mp h with rfl | h'
      · exact hm
      · have hni := ih (f.pageNo :: seen) w h'
        intro hseen
        exact hni (List.mem_cons_of_mem _ hseen)

theorem dedup_pages_nodup :
    ∀ (fs : List Frame) (seen : List Nat),
      ((dedupWrites seen fs).map (·.pageNo)).Nodup := by
  intro fs
  induction fs with
  | nil => intro seen; simp [dedupWrites]
  | cons f fs ih =>
    intro seen
    by_cases hm : f.pageNo ∈ seen
    · simp only [dedupWrites, if_pos hm]
      exact ih seen
    · simp only [dedupWrites, if_neg hm, List.map_cons]
      refine List.nodup_cons.mpr ⟨?_, ih (f.pageNo :: seen)⟩
      intro hmem
      obtain ⟨w, hw, hpg⟩ := List.mem_map.mp hmem
      exact dedup_pages_not_mem fs (f.pageNo :: seen) w hw
        (by rw [hpg]; exact List.mem_cons_self _ _)

theorem dedup_offset :
    ∀ (fs : List Frame) (seen : List Nat) (w : Write),
      w ∈ dedupWrites seen fs → w.offset = (w.pageNo - 1) * 4096 := by
  intro fs
  induction fs with
  | nil => intro seen w h; simp [dedupWrites] at h
  | cons f fs ih =>
    intro seen w h
    by_cases hm : f.pageNo ∈ seen
    · simp only [dedupWrites, if_pos hm] at h
      exact ih seen w h
    · simp only [dedupWrites, if_neg hm] at h
      rcases List.mem_cons.mp h with rfl | h'
      · rfl
      · exact ih (f.pageNo :: seen) w h'

theorem dedup_first_occurrence :
    ∀ (fs : List Frame) (seen : List Nat) (w : Write),
      w ∈ dedupWrites seen fs →
        fs.find? (fun f => f.pageNo == w.pageNo) = some ⟨w.pageNo, w.data⟩ := by
  intro fs
  induction fs with
  | nil => intro seen w h; simp [dedupWrites] at h
  | cons f fs ih =>
    intro seen w h
    by_cases hm : f.pageNo ∈ seen
    · simp only [dedupWrites, if_pos hm] at h
      have hne : (f.pageNo == w.pageNo) = false := by
        refine beq_eq_false_iff_ne.mpr fun he => ?_
        exact dedup_pages_not_mem fs seen w h (he ▸ hm)
      simp only [List.find?, hne]
      exact ih seen w h
    · simp only [dedupWrites, if_neg hm] at h
      rcases List.mem_cons.mp h with rfl | h'
      · have heq :
            (f.pageNo == (⟨f.pageNo, (f.pageNo - 1) * 4096, f.data⟩ : Write).pageNo) = true := by
          simp
        simp only [List.find?, heq]
      · have hwne : (f.pageNo == w.pageNo) = false := by
          refine beq_eq_false_iff_ne.mpr fun he => ?_
          exact dedup_pages_not_mem fs (f.pageNo :: seen) w h'
            (he ▸ List.mem_cons_self _ _)
        simp only [List.find?, hwne]
        exact ih (f.pageNo :: seen) w h'

theorem restoreLoop_writes :
    ∀ (fuel : Nat) (store : Store) (dbSize : Nat) (hdr : CompactedSegmentDataHeader)
      (frames : List Frame) (seen : List Nat) (ws : List Write),
      (restoreLoop store dbSize fuel hdr frames seen ws).1
        = ws ++ dedupWrites seen (specWalkFrames store dbSize fuel hdr frames seen) := by
  intro fuel
  induction fuel with
  | zero =>
    intro store dbSize hdr frames seen ws
    simp [restoreLoop, specWalkFrames, dedupWrites]
  | succ n ih =>
    intro store dbSize hdr frames seen ws
    by_cases hshort : frames.length < hdr.frameCount
    · simp [restoreLoop, specWalkFrames, if_pos hshort, dedupWrites]
    · simp only [restoreLoop, specWalkFrames, if_neg hshort, replayFrames_eq,
        List.length_append, List.length_reverse, List.length_map]
      by_cases hdone :
          (dedupWrites seen (frames.take hdr.frameCount)).length + seen.length = dbSize
      · simp [if_pos hdone]
      · simp only [if_neg hdone]
        by_cases hz : hdr.startFrameNo = 0
        · simp [if_pos hz]
        · simp only [if_neg hz]
          cases hfind : findSegment store.keys (hdr.startFrameNo - 1) with
          | none => simp
          | some k =>
            cases hdata : store.dataOf k with
            | none => simp [hdata]
            | some sd =>
              simp only [hdata, ih, dedupWrites_append, List.append_assoc]

/-! ## C3: the restore write policy -/

/-- C3: `restore_latest` writes each logical page at most once, at byte
offset `(page_no - 1) * 4096`, and the payload written for a page is the
one from the page's first occurrence in the frame stream of the
newest-first segment walk (`specWalk`); later occurrences of an
already-seen page are skipped.  The walk is newest-first: every lookup for
frame `f` returns a key with `start_frame_no ≤ f`, so each step returns a
segment strictly older than the current one. -/
theorem c3_restore_write_policy (store : Store) (fuel : Nat) (ws : List Write)
    (out : RestoreOutcome) (h : restoreLatest store fuel = (ws, out)) :
    ws = dedupWrites [] (specWalk store fuel)
    ∧ (ws.map (·.pageNo)).Nodup
    ∧ (∀ w ∈ ws, w.offset = (w.pageNo - 1) * 4096)
    ∧ (∀ w ∈ ws, (specWalk store fuel).find? (fun f => f.pageNo == w.pageNo)
        = some ⟨w.pageNo, w.data⟩)
    ∧ (∀ f k, findSegment store.keys f = some k → k.startFrameNo ≤ f) := by
  have hws : ws = dedupWrites [] (specWalk store fuel) := by
    unfold restoreLatest at h
    unfold specWalk
    cases hfind : findSegment store.keys U64_MAX with
    | none =>
      simp only [hfind] at h
      cases h
      rfl
    | some k =>
      simp only [hfind] at h
      cases hdata : store.dataOf k with
      | none =>
        simp only [hdata] at h
        cases h
        simp [hdata, dedupWrites]
      | some sd =>
        simp only [hdata] at h
        have hwr := restoreLoop_writes fuel store sd.header.sizeAfter sd.header sd.frames [] []
        rw [h] at hwr
        simpa [hdata] using hwr
  refine ⟨hws, ?_, ?_, ?_, fun f k hk => (findSegment_mem hk).2⟩
  · rw [hws]
    exact dedup_pages_nodup _ []
  · intro w hw
    rw [hws] at hw
    exact dedup_offset _ [] w hw
  · intro w hw
    rw [hws] at hw
    exact dedup_first_occurrence _ [] w hw

/-- Witness for C3 on the concrete two-segment store. -/
theorem c3_restore_write_policy_witness :
    ([⟨1, 0, [11]⟩, ⟨2, 4096, [22]⟩] : List Write) = dedupWrites [] (specWalk demoStore 2) :=
  (c3_restore_write_policy demoStore 2 [⟨1, 0, [11]⟩, ⟨2, 4096, [22]⟩] .completed
    (by decide)).1

/-! ## C8: the completion check's `db_size` -/

theorem restoreLoop_completed_length :
    ∀ (fuel : Nat) (store : Store) (dbSize : Nat) (hdr : CompactedSegmentDataHeader)
      (frames : List Frame) (seen : List Nat) (ws ws' : List Write),
      restoreLoop store dbSize fuel hdr frames seen ws = (ws', .completed) →
      seen.length = ws.length → ws'.length = dbSize := by
  intro fuel
  induction fuel with
  | zero =>
    intro store dbSize hdr frames seen ws ws' h
    simp [restoreLoop] at h
  | succ n ih =>
    intro store dbSize hdr frames seen ws ws' h hlen
    by_cases hshort : frames.length < hdr.frameCount
    · simp [restoreLoop, if_pos hshort] at h
    · simp only [restoreLoop, if_neg hshort, replayFrames_eq,
        List.length_append, List.length_reverse, List.length_map] at h
      by_cases hdone :
          (dedupWrites seen (frames.take hdr.frameCount)).length + seen.length = dbSize
      · rw [if_pos hdone] at h
        cases h
        simp only [List.length_append]
        omega
      · rw [if_neg hdone] at h
        by_cases hz : hdr.startFrameNo = 0
        · rw [if_pos hz] at h
          cases h
        · rw [if_neg hz] at h
          cases hfind : findSegment store.keys (hdr.startFrameNo - 1) with
          | none =>
            simp only [hfind] at h
            cases h
          | some k =>
            simp only [hfind] at h
            cases hdata : store.dataOf k with
            | none =>
              simp only [hdata] at h
              cases h
            | some sd =>
              simp only [hdata] at h
              refine ih store dbSize sd.header sd.frames _ _ ws' h ?_
              simp only [List.length_append, List.length_reverse, List.length_map]
              omega

/-- C8 counterexample: on `demoStore` the code's restore completes after
two segments (the check compares against the *newest* segment's
`size_after = 2`), while the claim's per-segment `db_size` variant does not
complete there and walks on into the missing-segment panic. -/
theorem c8_counterexample :
    restoreLatest demoStore 2 = ([⟨1, 0, [11]⟩, ⟨2, 4096, [22]⟩], .completed)
    ∧ restoreLatestPerSegment demoStore 2
        = ([⟨1, 0, [11]⟩, ⟨2, 4096, [22]⟩], .missingSegment)
    ∧ restoreLatest demoStore 2 ≠ restoreLatestPerSegment demoStore 2 :=
  ⟨by decide, by decide, by decide⟩

/-- C8 (amended): `db_size` is bound once, before the segment loop, from
the newest segment's header; the per-segment header re-read only refreshes
`frame_count` and `start_frame_no`.  Whenever the restore completes, the
number of distinct pages written equals the `size_after` of the *newest*
segment — the one found by the `u64::MAX` lookup — not of the segment
last replayed. -/
theorem c8_dbsize_from_newest (store : Store) (fuel : Nat) (ws : List Write)
    (h : restoreLatest store fuel = (ws, .completed)) :
    (findSegment store.keys U64_MAX = none → ws = [])
    ∧ (∀ k sd, findSegment store.keys U64_MAX = some k → store.dataOf k = some sd →
        ws.length = sd.header.sizeAfter) := by
  constructor
  · intro hfind
    unfold restoreLatest at h
    simp only [hfind] at h
    cases h
    rfl
  · intro k sd hfind hdata
    unfold restoreLatest at h
    simp only [hfind, hdata] at h
    exact restoreLoop_completed_length fuel store _ _ _ [] [] ws h rfl

/-- Witness for C8's amended statement on the concrete store: two distinct
pages were written and the newest segment declares `size_after = 2`. -/
theorem c8_dbsize_from_newest_witness :
    ([⟨1, 0, [11]⟩, ⟨2, 4096, [22]⟩] : List Write).length
      = (⟨⟨5, 1, 2⟩, [⟨1, [11]⟩]⟩ : SegData).header.sizeAfter :=
  (c8_dbsize_from_newest demoStore 2 [⟨1, 0, [11]⟩, ⟨2, 4096, [22]⟩] (by decide)).2
    ⟨5, 10, 1⟩ ⟨⟨5, 1, 2⟩, [⟨1, [11]⟩]⟩ (by decide) (by decide)

/-! ## C9: the `start_frame_no - 1` subtraction -/

theorem dataOf_mem {store : Store} {k : SegmentKey} {sd : SegData}
    (h : store.dataOf k = some sd) : ∃ s ∈ store, s.data = sd := by
  unfold Store.dataOf at h
  cases hf : store.find? fun s => s.key = k with
  | none =>
    rw [hf] at h
    cases h
  | some s =>
    rw [hf] at h
    cases h
    exact ⟨s, List.mem_of_find?_eq_some hf, rfl⟩

theorem restoreLoop_no_underflow :
    ∀ (fuel : Nat) (store : Store) (dbSize : Nat) (hdr : CompactedSegmentDataHeader)
      (frames : List Frame) (seen : List Nat) (ws : List Write),
      (∀ s ∈ store, 1 ≤ s.data.header.startFrameNo) → 1 ≤ hdr.startFrameNo →
      (restoreLoop store dbSize fuel hdr frames seen ws).2 ≠ .underflow := by
  intro fuel
  induction fuel with
  | zero =>
    intro store dbSize hdr frames seen ws hstore hhdr
    simp [restoreLoop]
  | succ n ih =>
    intro store dbSize hdr frames seen ws hstore hhdr
    by_cases hshort : frames.length < hdr.frameCount
    · simp [restoreLoop, if_pos hshort]
    · simp only [restoreLoop, if_neg hshort, replayFrames_eq,
        List.length_append, List.length_reverse, List.length_map]
      by_cases hdone :
          (dedupWrites seen (frames.take hdr.frameCount)).length + seen.length = dbSize
      · simp [if_pos hdone]
      · rw [if_neg hdone]
        have hz : ¬ hdr.startFrameNo = 0 := by omega
        rw [if_neg hz]
        cases hfind : findSegment store.keys (hdr.startFrameNo - 1) with
        | none => simp
        | some k =>
          cases hdata : store.dataOf k with
          | none => simp [hdata]
          | some sd =>
            simp only [hdata]
            obtain ⟨s, hs, rfl⟩ := dataOf_mem hdata
            exact ih store dbSize s.data.header s.data.frames _ _ hstore (hstore s hs)

/-- C9: `restore_latest` computes the next lookup frame as
`start_frame_no - 1` in `u64` with no underflow guard.  Whenever every
stored segment has `start_frame_no ≥ 1` the subtraction is well-defined and
the run never reaches the underflow; conversely, when the newest segment
has `start_frame_no = 0` and its replay leaves the restore incomplete, the
run ends exactly in the underflowing subtraction. -/
theorem c9_restore_underflow (store : Store) (fuel : Nat) :
    ((∀ s ∈ store, 1 ≤ s.data.header.startFrameNo) →
      (restoreLatest store fuel).2 ≠ .underflow)
    ∧ (∀ k sd, findSegment store.keys U64_MAX = some k → store.dataOf k = some sd →
        sd.header.startFrameNo = 0 →
        ¬ sd.frames.length < sd.header.frameCount →
        (replayFrames [] [] (sd.frames.take sd.header.frameCount)).1.length
            ≠ sd.header.sizeAfter →
        restoreLatest store (fuel + 1)
          = ((replayFrames [] [] (sd.frames.take sd.header.frameCount)).2, .underflow)) := by
  constructor
  · intro hstore
    unfold restoreLatest
    cases hfind : findSegment store.keys U64_MAX with
    | none => simp
    | some k =>
      cases hdata : store.dataOf k with
      | none => simp [hdata]
      | some sd =>
        simp only [hdata]
        obtain ⟨s, hs, rfl⟩ := dataOf_mem hdata
        exact restoreLoop_no_underflow fuel store _ _ _ [] [] hstore (hstore s hs)
  · intro k sd hfind hdata hz hshort hlen
    unfold restoreLatest
    simp only [hfind, hdata]
    simp only [restoreLoop, if_neg hshort, if_neg hlen, if_pos hz]

/-- Witness for C9: on the store whose newest segment starts at frame 0 and
whose replay is incomplete, restore ends in the underflow. -/
theorem c9_restore_underflow_witness :
    restoreLatest demoStoreZero 1
      = ((replayFrames [] [] (([⟨1, [9]⟩] : List Frame).take 1)).2, .underflow) :=
  (c9_restore_underflow demoStoreZero 0).2 ⟨0, 10, 1⟩ ⟨⟨0, 1, 2⟩, [⟨1, [9]⟩]⟩
    (by decide) (by decide) rfl (by decide) (by decide)


/-! ## Sanity checks

The CRC-32 model against the standard check value, the header size, and
the lookup model against the overlap-resolution and latest-segment
scenarios of the repository's own `s3_basic` test. -/

example : crc32 [0x31, 0x32, 0x33, 0x34, 0x35, 0x36, 0x37, 0x38, 0x39] = 0xCBF43926 := by
  decide

example : (encodeIndex [1, 2]).length = 24 := by decide

example :
    findSegment [⟨0, 64, 1⟩, ⟨64, 128, 2⟩] 63 = some ⟨0, 64, 1⟩ := by decide

example :
    findSegment [⟨0, 64, 1⟩, ⟨64, 128, 2⟩] 64 = some ⟨64, 128, 2⟩ := by decide

example :
    findSegment [⟨0, 64, 1⟩, ⟨64, 128, 2⟩] U64_MAX = some ⟨64, 128, 2⟩ := by decide

example : findSegment [] 5 = none := by decide

end S3B
